import Mathlib

/-!
Shallow embedding of the GitHub fetch/rate-limit/filter/select pipeline of
`src/main.py` (PointCloudLibrary/discord-bot).  Network requests are modelled
by oracles: a behaviour function saying, per request, whether the request
times out and which rate-limit headers come back; the enrichment fetch is a
pure function from summary item to detail item; `random.random()` is a stream
of rationals in `[0, 1)`.  Reporting through the injected error channel is
recorded as a boolean / counter, and `asyncio.sleep` as the recorded delay.
-/

/-- Result of one call to `github_ratelimiter` (main.py lines 65-79):
whether the error channel was invoked, how long `asyncio.sleep` was awaited
(none when no sleep happened), and the returned value (`sleep_time` in the
give-up branch, `0` otherwise); the caller treats a nonzero return as the
give-up signal (`if await github_ratelimiter(...): break`). -/
structure RLResult where
  reported : Bool
  slept : Option ℚ
  signal : ℚ

deriving instance DecidableEq for RLResult

/-- Embedding of `github_ratelimiter` (main.py lines 65-79).  `remaining` and
`reset` are the integer `X-RateLimit-Remaining` / `X-RateLimit-Reset` headers,
`now` the current epoch time in seconds. -/
def github_ratelimiter (remaining : Int) (reset : Int) (now : ℚ) : RLResult :=
  if remaining = 1 then
    let sleep_time : ℚ := ((reset : ℚ) - now) + 1
    if sleep_time > 61 then ⟨true, none, sleep_time⟩
    else ⟨false, some sleep_time, 0⟩
  else ⟨false, none, 0⟩

/-- Behaviour of one network request: either `session.get` raises
`TimeoutError`, or it succeeds and the response carries the given rate-limit
headers. -/
inductive ReqBehavior where
  | timeout : ReqBehavior
  | ok : Int → Int → ReqBehavior

deriving instance DecidableEq for ReqBehavior

/-- Request `p` succeeds and the subsequent `github_ratelimiter` call returns
the continue signal `0`. -/
def req_ok (beh : Nat → ReqBehavior) (now : ℚ) (p : Nat) : Prop :=
  ∃ rem rst, beh p = ReqBehavior.ok rem rst ∧ (github_ratelimiter rem rst now).signal = 0

/-- Why the `while True` loop of `get_issues` stopped. -/
inductive StopReason where
  | timeout : StopReason
  | giveUp : StopReason
  | complete : StopReason
  | fuelOut : StopReason

deriving instance DecidableEq for StopReason

/-- Items of page `p` (1-based) of a consistent search API whose full result
set is `all`: pages are served 100 at a time (`per_page=100`). -/
def page_items (all : List α) (p : Nat) : List α :=
  (all.drop (100 * (p - 1))).take 100

/-- The `while True` loop of `get_issues` (main.py lines 131-159).  `p` is the
current `page`, `dc` the running `data_count`; the API reports
`total_count = all.length` on every page.  Returns the yielded items and the
reason the loop stopped; `fuel` bounds the number of iterations (the wrapper
passes enough fuel for a consistent API). -/
def get_issues_go (all : List α) (beh : Nat → ReqBehavior) (now : ℚ) :
    Nat → Nat → Nat → List α × StopReason
  | 0, _, _ => ([], StopReason.fuelOut)
  | fuel + 1, p, dc =>
    match beh p with
    | ReqBehavior.timeout => ([], StopReason.timeout)
    | ReqBehavior.ok rem rst =>
      let items := page_items all p
      let dc' := dc + items.length
      if (github_ratelimiter rem rst now).signal ≠ 0 then (items, StopReason.giveUp)
      else if dc' = all.length then (items, StopReason.complete)
      else
        let r := get_issues_go all beh now fuel (p + 1) dc'
        (items ++ r.1, r.2)

/-- Embedding of the pagination loop of `get_issues` (main.py lines 131-159):
start at page 1 with `data_count = 0`. -/
def get_issues (all : List α) (beh : Nat → ReqBehavior) (now : ℚ) :
    List α × StopReason :=
  get_issues_go all beh now (all.length + 1) 1 0

/-- An entry of a pull request's `requested_reviewers` list. -/
structure Reviewer where
  login : String

deriving instance DecidableEq for Reviewer

/-- A GitHub issue / pull-request record, reduced to the fields the verified
pipeline reads.  The same shape stands for both the summary item returned by
the search endpoint and the enriched detail record. -/
structure Item where
  item_id : Nat
  requested_reviewers : List Reviewer

deriving instance DecidableEq for Item

/-- Number of entries of `pr["requested_reviewers"]` whose `login` equals
`user` (the inner loop of `pr_with_pending_review`, main.py lines 191-194). -/
def matching_reviewers (pr : Item) (user : String) : Nat :=
  (pr.requested_reviewers.filter (fun r => r.login == user)).length

/-- Embedding of `pr_with_pending_review` (main.py lines 186-194) as a
function on the materialized stream: for each pull request, one `yield pr`
per reviewer entry whose login equals `user`, in input order. -/
def pr_with_pending_review : List Item → String → List Item
  | [], _ => []
  | pr :: rest, user =>
    (pr.requested_reviewers.filter (fun r => r.login == user)).map (fun _ => pr)
      ++ pr_with_pending_review rest user

/-- Inner consumer loop of `choose_review` (main.py lines 279-282) restricted
to the yields produced by one filtered pull request: append the pull request
`m` times, one at a time, breaking as soon as `len(chosen) == N`.  Returns
the new accumulator and whether the break was hit. -/
def append_yields (N : Nat) : List Item → Item → Nat → List Item × Bool
  | acc, _, 0 => (acc, false)
  | acc, pr, m + 1 =>
    let acc' := acc ++ [pr]
    if acc'.length = N then (acc', true) else append_yields N acc' pr m

/-- Fusion of the pull-based pipeline
`pr_with_pending_review(get_pr_details(issues), user)` driven by the
`async for` loop of `choose_review` (main.py lines 162-183 and 277-282).
For each summary item, one detail request is made (oracle `beh` at index `k`,
detail payload `d i`); its yields are appended until `N` items are collected,
at which point the consumer breaks and nothing further upstream runs; after
the yields of a pull request are consumed, `get_pr_details` resumes and its
`github_ratelimiter` call may break the stream.  Returns the number of
successful detail fetches together with the collected items. -/
def choose_review_go (d : Item → Item) (beh : Nat → ReqBehavior) (now : ℚ)
    (user : String) (N : Nat) : List Item → Nat → List Item → Nat × List Item
  | [], _, acc => (0, acc)
  | i :: rest, k, acc =>
    match beh k with
    | ReqBehavior.timeout => (0, acc)
    | ReqBehavior.ok rem rst =>
      let pr := d i
      let ay := append_yields N acc pr (matching_reviewers pr user)
      if ay.2 then (1, ay.1)
      else if (github_ratelimiter rem rst now).signal ≠ 0 then (1, ay.1)
      else
        let r := choose_review_go d beh now user N rest (k + 1) ay.1
        (r.1 + 1, r.2)

/-- Embedding of `choose_review` (main.py lines 274-289).  With an author the
issues are piped through `get_pr_details` and `pr_with_pending_review` and
collected with early exit; without one, the first `number_of_issues` raw
items are taken (zero detail fetches).  The first component of the result
counts detail fetches; the string is the reply title. -/
def choose_review (issues : List Item) (number_of_issues : Nat)
    (author : Option String) (d : Item → Item) (beh : Nat → ReqBehavior)
    (now : ℚ) : (Nat × List Item) × String :=
  match author with
  | some user =>
    let r := choose_review_go d beh now user number_of_issues issues 0 []
    (r, s!"Oldest {number_of_issues} PR(s) for @{user}:")
  | none =>
    ((0, issues.take number_of_issues),
      s!"Oldest {number_of_issues} PR(s) in review queue:")

/-- Number of items `choose_review` must pull from upstream to collect `n`
matches: the position of the `n`-th match (counting one match per matching
reviewer entry), or the full input length when fewer than `n` match. -/
def fetches_needed (d : Item → Item) (user : String) : Nat → List Item → Nat
  | _, [] => 0
  | n, i :: rest =>
    if n ≤ matching_reviewers (d i) user then 1
    else 1 + fetches_needed d user (n - matching_reviewers (d i) user) rest

/-- One draw of `random.choices`: `population[floor(random() * len(population))]`,
`none` when the index is out of range (the `IndexError` of an empty
population).  `i` indexes the stream of `random()` values, `k` counts the
draws still to make. -/
def pick_list (issues : List α) (r : Nat → ℚ) : Nat → Nat → Option (List α)
  | _, 0 => some []
  | i, k + 1 =>
    match issues[Int.toNat ⌊r i * (issues.length : ℚ)⌋]? with
    | none => none
    | some x =>
      match pick_list issues r (i + 1) k with
      | none => none
      | some xs => some (x :: xs)

/-- Embedding of `choose_rand` (main.py lines 259-271):
`random.choices(issues, k=number_of_issues)` plus the title; `none` models
the `IndexError` raised on an empty population. -/
def choose_rand (issues : List α) (number_of_issues : Nat) (r : Nat → ℚ) :
    Option (List α × String) :=
  match pick_list issues r 0 number_of_issues with
  | none => none
  | some chosen =>
    let n := issues.length
    some (chosen, s!"{number_of_issues} random picks out of {n}:")

/-- Embedding of `choose_feedback` (main.py lines 292-298). -/
def choose_feedback (issues : List α) (number_of_issues : Nat)
    (pull_request : Bool) : List α × String :=
  let kind := if pull_request then "PR(s)" else "issue(s)"
  (issues.take number_of_issues,
    s!"Oldest {number_of_issues} {kind} in feedback queue:")

/-- The short-result check of `command_function` (main.py line 367):
`len(chosen_issues) < number_of_issues` sets the "There weren't enough..."
footer. -/
def result_short (chosen : List α) (number_of_issues : Nat) : Bool :=
  decide (chosen.length < number_of_issues)

/-- Embedding of `check_number_of_issues` (main.py lines 219-230): corrected
count together with the number of error-channel reports.  The two sequential
`if` statements are flattened: when the first fires it sets the count to 10,
so the second test `10 > 10` can no longer fire. -/
def check_number_of_issues (number_of_issues : Int) : Int × Nat :=
  if number_of_issues < 1 then (10, 1)
  else if number_of_issues > 10 then (10, 1)
  else (number_of_issues, 0)

/-- Python's `noun in [...]` test, where `noun` may be `None`. -/
def noun_in (noun : Option String) (ws : List String) : Bool :=
  match noun with
  | some s => ws.contains s
  | none => false

/-- Embedding of `check_pull_request` (main.py lines 233-241): the chosen
kind (`true` = pull request) together with the number of error-channel
reports. -/
def check_pull_request (noun : Option String) : Bool × Nat :=
  if noun_in noun ["issue", "issues", "ISSUE", "ISSUES"] then (false, 0)
  else if noun_in noun ["pr", "prs", "PR", "PRs", "PRS"] then (true, 0)
  else (false, 1)

/-- Bytes left untouched by `urllib.parse.quote(x, safe='"')`: the always-safe
ASCII alphanumerics and `_ . - ~`, plus the explicitly safe `"` (byte 34). -/
def isSafeByte (b : Nat) : Bool :=
  (65 ≤ b && b ≤ 90) || (97 ≤ b && b ≤ 122) || (48 ≤ b && b ≤ 57)
    || b == 95 || b == 46 || b == 45 || b == 126 || b == 34

/-- Uppercase hexadecimal digit, as used by `urllib.parse.quote`. -/
def hexDigit (n : Nat) : Char :=
  if n < 10 then Char.ofNat (48 + n) else Char.ofNat (55 + n)

/-- Embedding of `gh_encode` (main.py lines 111-112), i.e.
`quote_plus(x, safe='"')`, acting on the UTF-8 bytes of the label: a space
becomes `+`, safe bytes pass through, everything else becomes `%XX`. -/
def gh_encode : List Nat → List Char
  | [] => []
  | b :: rest =>
    (if b = 32 then ['+']
     else if isSafeByte b then [Char.ofNat b]
     else ['%', hexDigit (b / 16), hexDigit (b % 16)]) ++ gh_encode rest

/-- Value of an uppercase hexadecimal digit character. -/
def hexVal (c : Char) : Option Nat :=
  let n := c.toNat
  if 48 ≤ n ∧ n ≤ 57 then some (n - 48)
  else if 65 ≤ n ∧ n ≤ 70 then some (n - 55)
  else none

/-- Standard URL decoding of a query-string component back to bytes:
`%XX` to the byte `XX`, `+` to the space byte 32, any other character to its
code point. -/
def urlDecodeBytes : List Char → Option (List Nat)
  | [] => some []
  | c :: rest =>
    if c = '%' then
      match rest with
      | h1 :: h2 :: rest' =>
        match hexVal h1, hexVal h2 with
        | some a, some b =>
          match urlDecodeBytes rest' with
          | none => none
          | some t => some ((16 * a + b) :: t)
        | _, _ => none
      | _ => none
    else if c = '+' then
      match urlDecodeBytes rest with
      | none => none
      | some t => some (32 :: t)
    else
      match urlDecodeBytes rest with
      | none => none
      | some t => some (c.toNat :: t)

/-- Scan to the first `"`: returns the characters before it and the rest
after it.  This is how a reader of the rendered query recovers the extent of
a quoted term. -/
def upToQuote : List Char → Option (List Char × List Char)
  | [] => none
  | c :: rest =>
    if c = '"' then some ([], rest)
    else
      match upToQuote rest with
      | none => none
      | some p => some (c :: p.1, p.2)

/-- The rendered inclusion term for one label (main.py line 117):
`label:"` ++ encoded label ++ `"`. -/
def label_term (x : List Nat) : List Char :=
  ['l', 'a', 'b', 'e', 'l', ':', '"'] ++ gh_encode x ++ ['"']

/-- Reading a rendered `label:"..."` term back: require the `label:"` head,
take the quoted extent up to the next `"`, require the term to end there, and
URL-decode the extent to the label bytes. -/
def parse_label_term (s : List Char) : Option (List Nat) :=
  if s.take 7 = ['l', 'a', 'b', 'e', 'l', ':', '"'] then
    match upToQuote (s.drop 7) with
    | some p => if p.2 = [] then urlDecodeBytes p.1 else none
    | none => none
  else none

/-- Embedding of the query-URL construction of `get_issues` (main.py lines
107-127).  Labels are given as UTF-8 byte lists. -/
def build_query_url (repository : String) (closed : Bool) (pull_request : Bool)
    (include_labels exclude_labels : List (List Nat)) (sort : String)
    (ascending_order : Bool) : String :=
  let closedS := if closed then "closed" else "open"
  let prS := if pull_request then "pr" else "issue"
  let api_url := "https://api.github.com/search/issues?"
  let excluded_labels :=
    exclude_labels.map (fun x => "-label:\"" ++ String.mk (gh_encode x) ++ "\"")
  let included_labels :=
    include_labels.map (fun x => "label:\"" ++ String.mk (gh_encode x) ++ "\"")
  let query := [["is:" ++ prS], ["repo:" ++ repository], ["is:" ++ closedS],
    excluded_labels, included_labels]
  let query_string := "q=" ++ String.intercalate "+" query.flatten
  let sort_string := "sort=" ++ sort
  let order_string := "order=" ++ (if ascending_order then "asc" else "desc")
  api_url ++ String.intercalate "&" [query_string, sort_string, order_string]

/-- Per-page search URL of `get_issues` (main.py line 135). -/
def search_url (query_url : String) (page : Nat) : String :=
  query_url ++ "&page=" ++ toString page ++ "&per_page=100"

/-- C2: when the remaining-quota header is exactly 1, the rate limiter
computes delay = reset − now + 1; above 61 seconds it reports and returns the
(nonzero) give-up signal without sleeping, otherwise it sleeps for the delay
and returns the continue signal 0; with remaining ≠ 1 it continues
immediately.  Concretely, remaining=1 with reset = now + 5 sleeps 6 seconds
and continues, and reset = now + 120 gives up without sleeping. -/
theorem c2_ratelimiter_delay (rem reset : Int) (now : ℚ) :
    (rem = 1 →
      (61 < (reset : ℚ) - now + 1 →
        github_ratelimiter rem reset now = ⟨true, none, (reset : ℚ) - now + 1⟩ ∧
          (reset : ℚ) - now + 1 ≠ 0) ∧
      ((reset : ℚ) - now + 1 ≤ 61 →
        github_ratelimiter rem reset now = ⟨false, some ((reset : ℚ) - now + 1), 0⟩))
    ∧ (rem ≠ 1 → github_ratelimiter rem reset now = ⟨false, none, 0⟩)
    ∧ github_ratelimiter 1 5 0 = ⟨false, some 6, 0⟩
    ∧ github_ratelimiter 1 120 0 = ⟨true, none, 121⟩ := by
  refine ⟨?_, ?_, ?_, ?_⟩
  · intro h1
    subst h1
    constructor
    · intro hgt
      rw [github_ratelimiter, if_pos rfl]
      dsimp only
      rw [if_pos hgt]
      exact ⟨rfl, by intro h0; rw [h0] at hgt; norm_num at hgt⟩
    · intro hle
      rw [github_ratelimiter, if_pos rfl]
      dsimp only
      rw [if_neg (by exact not_lt.mpr hle)]
  · intro hne
    rw [github_ratelimiter, if_neg hne]
  · norm_num [github_ratelimiter]
  · norm_num [github_ratelimiter]

theorem c2_ratelimiter_delay_witness :
    github_ratelimiter 1 120 0 = ⟨true, none, ((120 : Int) : ℚ) - 0 + 1⟩ ∧
      ((120 : Int) : ℚ) - 0 + 1 ≠ 0 :=
  ((c2_ratelimiter_delay 1 120 0).1 rfl).1 (by norm_num)

/-- C6: the feedback-queue strategy returns the first N items of the input
list; with fewer than N items it returns the whole list, and the caller's
short-result check flags exactly that case; in particular [a,b,c] with N=5
returns all 3 items and is flagged short. -/
theorem c6_feedback_first_n (α : Type) (issues : List α) (N : Nat)
    (pull_request : Bool) :
    (choose_feedback issues N pull_request).1 = issues.take N
    ∧ ((choose_feedback issues N pull_request).1 = issues
        ∨ (choose_feedback issues N pull_request).1.length = N)
    ∧ result_short (choose_feedback issues N pull_request).1 N
        = decide (issues.length < N)
    ∧ (choose_feedback (["a", "b", "c"] : List String) 5 false).1 = ["a", "b", "c"]
    ∧ result_short (choose_feedback (["a", "b", "c"] : List String) 5 false).1 5
        = true := by
  refine ⟨rfl, ?_, ?_, by decide, by decide⟩
  · rcases le_or_lt issues.length N with h | h
    · exact Or.inl (by simp [choose_feedback, List.take_of_length_le h])
    · refine Or.inr ?_
      simp only [choose_feedback, List.length_take]
      omega
  · simp only [result_short, choose_feedback, List.length_take]
    rw [decide_eq_decide]
    omega

/-- C8: a count outside [1,10] is corrected to the default 10 with one report
while a count inside the range passes through unreported, and a noun that is
neither an issue nor a PR keyword yields the issue default `false` with one
report (recognized nouns are unreported). -/
theorem c8_malformed_input_corrected (n : Int) (noun : Option String) :
    check_number_of_issues n = (if n < 1 ∨ 10 < n then ((10 : Int), 1) else (n, 0))
    ∧ check_pull_request noun =
        (noun_in noun ["pr", "prs", "PR", "PRs", "PRS"],
          if noun_in noun ["issue", "issues", "ISSUE", "ISSUES"]
              || noun_in noun ["pr", "prs", "PR", "PRs", "PRS"] then 0 else 1) := by
  constructor
  · rw [check_number_of_issues]
    split_ifs with h1 h2 h3 h4 h5 <;> first | rfl | omega
  · have hdisj : noun_in noun ["issue", "issues", "ISSUE", "ISSUES"] = true →
        noun_in noun ["pr", "prs", "PR", "PRs", "PRS"] = false := by
      cases noun with
      | none => intro h; simp [noun_in] at h
      | some s =>
        intro h
        simp only [noun_in] at h ⊢
        have hs : s = "issue" ∨ s = "issues" ∨ s = "ISSUE" ∨ s = "ISSUES" := by
          simpa using h
        rcases hs with rfl | rfl | rfl | rfl <;> decide
    rw [check_pull_request]
    cases hni : noun_in noun ["issue", "issues", "ISSUE", "ISSUES"] with
    | true => simp [hdisj hni]
    | false =>
      cases hnp : noun_in noun ["pr", "prs", "PR", "PRs", "PRS"] with
      | true => simp
      | false => simp

/-- C9: the review-pending filter yields an item once per matching reviewer
entry, so the output length is the sum of the per-item matching-entry counts,
and an item whose reviewer list holds the target login twice appears twice. -/
theorem c9_yield_per_matching_entry (prs : List Item) (user : String) :
    (pr_with_pending_review prs user).length
        = (prs.map (fun pr => matching_reviewers pr user)).sum
    ∧ pr_with_pending_review [⟨0, [⟨"alice"⟩, ⟨"alice"⟩]⟩] "alice"
        = [⟨0, [⟨"alice"⟩, ⟨"alice"⟩]⟩, ⟨0, [⟨"alice"⟩, ⟨"alice"⟩]⟩] := by
  constructor
  · induction prs with
    | nil => rfl
    | cons pr rest ih =>
      simp [pr_with_pending_review, matching_reviewers, ih]
  · decide

/-- C10: on an empty input list with any requested count at least 1, the
random-sample strategy hits the `IndexError` of `random.choices` (modelled as
`none`) instead of returning a short selection. -/
theorem c10_choose_rand_empty_raises (N : Nat) (r : Nat → ℚ) (h : 1 ≤ N) :
    choose_rand ([] : List Item) N r = none := by
  match N, h with
  | n + 1, _ => simp [choose_rand, pick_list]

theorem c10_choose_rand_empty_raises_witness :
    choose_rand ([] : List Item) 1 (fun _ => 0) = none :=
  c10_choose_rand_empty_raises 1 (fun _ => 0) (Nat.le_refl 1)

/-- C4: every item yielded by the review-pending filter has a requested
reviewer whose login is the target identity (items without one never appear),
and the output is an order-preserving selection from the input stream (a
sublist of the input with each item repeated up to its reviewer count). -/
theorem c4_filter_only_matching (prs : List Item) (user : String) :
    (∀ pr, pr ∈ pr_with_pending_review prs user →
        ∃ rv ∈ pr.requested_reviewers, rv.login = user)
    ∧ List.Sublist (pr_with_pending_review prs user)
        (prs.flatMap (fun pr => List.replicate pr.requested_reviewers.length pr)) := by
  constructor
  · induction prs with
    | nil => intro pr h; simp [pr_with_pending_review] at h
    | cons q rest ih =>
      intro pr hpr
      rw [pr_with_pending_review, List.mem_append] at hpr
      rcases hpr with h | h
      · obtain ⟨rv, hrv, hq⟩ := List.mem_map.mp h
        subst hq
        have hf := List.mem_filter.mp hrv
        exact ⟨rv, hf.1, by simpa using hf.2⟩
      · exact ih pr h
  · induction prs with
    | nil => simp [pr_with_pending_review]
    | cons q rest ih =>
      rw [pr_with_pending_review, List.flatMap_cons]
      refine List.Sublist.append ?_ ih
      rw [List.map_const']
      exact (List.replicate_sublist_replicate q).mpr
        (List.length_filter_le _ _)

theorem c4_filter_only_matching_witness :
    ∃ rv ∈ (Item.mk 0 [Reviewer.mk "alice"]).requested_reviewers,
      rv.login = "alice" :=
  (c4_filter_only_matching [⟨0, [⟨"alice"⟩]⟩] "alice").1 ⟨0, [⟨"alice"⟩]⟩
    (by decide)

theorem pick_list_total (α : Type) (issues : List α) (r : Nat → ℚ)
    (hne : issues ≠ []) (hr : ∀ i, 0 ≤ r i ∧ r i < 1) :
    ∀ (k i : Nat), ∃ xs, pick_list issues r i k = some xs ∧ xs.length = k
      ∧ ∀ x ∈ xs, x ∈ issues := by
  intro k
  induction k with
  | zero => exact fun i => ⟨[], rfl, rfl, by simp⟩
  | succ m ih =>
    intro i
    have hlen : 0 < issues.length := List.length_pos.mpr hne
    have h0 : (0 : ℚ) ≤ r i * (issues.length : ℚ) :=
      mul_nonneg (hr i).1 (by positivity)
    have h1 : r i * (issues.length : ℚ) < (issues.length : ℚ) := by
      calc r i * (issues.length : ℚ) < 1 * (issues.length : ℚ) := by
            exact mul_lt_mul_of_pos_right (hr i).2 (by exact_mod_cast hlen)
        _ = (issues.length : ℚ) := one_mul _
    have hidx : Int.toNat ⌊r i * (issues.length : ℚ)⌋ < issues.length := by
      have hf : ⌊r i * (issues.length : ℚ)⌋ < (issues.length : ℤ) := by
        rw [Int.floor_lt]
        exact_mod_cast h1
      have hf0 : 0 ≤ ⌊r i * (issues.length : ℚ)⌋ := Int.floor_nonneg.mpr h0
      omega
    obtain ⟨xs, hxs, hlenxs, hmem⟩ := ih (i + 1)
    refine ⟨issues[Int.toNat ⌊r i * (issues.length : ℚ)⌋] :: xs, ?_, by simp [hlenxs], ?_⟩
    · rw [pick_list, List.getElem?_eq_getElem hidx, hxs]
    · intro x hx
      rcases List.mem_cons.mp hx with rfl | hx
      · exact List.getElem_mem hidx
      · exact hmem x hx

/-- C5: on a nonempty list, the random-sample strategy returns exactly N
items, each drawn from the input list (duplicates possible since the draws
are independent), with the title "N random picks out of total:". -/
theorem c5_random_sample_exact_n (α : Type) (issues : List α) (N : Nat)
    (r : Nat → ℚ) (hne : issues ≠ []) (hr : ∀ i, 0 ≤ r i ∧ r i < 1) :
    ∃ picks, choose_rand issues N r
        = some (picks, s!"{N} random picks out of {issues.length}:")
      ∧ picks.length = N ∧ ∀ p ∈ picks, p ∈ issues := by
  obtain ⟨xs, hxs, hl, hm⟩ := pick_list_total α issues r hne hr N 0
  exact ⟨xs, by rw [choose_rand, hxs], hl, hm⟩

theorem c5_random_sample_exact_n_witness :
    ∃ picks, choose_rand ([0, 1] : List Nat) 2 (fun _ => 0)
        = some (picks, s!"{2} random picks out of {([0, 1] : List Nat).length}:")
      ∧ picks.length = 2 ∧ ∀ p ∈ picks, p ∈ ([0, 1] : List Nat) :=
  c5_random_sample_exact_n Nat [0, 1] 2 (fun _ => 0) (by simp)
    (fun i => by norm_num)

theorem append_yields_break (N : Nat) (pr : Item) :
    ∀ (m : Nat) (acc : List Item), acc.length < N →
      (append_yields N acc pr m).2 = decide (N - acc.length ≤ m) := by
  intro m
  induction m with
  | zero =>
    intro acc h
    rw [append_yields]
    symm
    rw [decide_eq_false_iff_not]
    omega
  | succ k ih =>
    intro acc h
    rw [append_yields]
    by_cases heq : (acc ++ [pr]).length = N
    · rw [if_pos heq]
      show true = decide (N - acc.length ≤ k + 1)
      symm
      rw [decide_eq_true_eq]
      simp only [List.length_append, List.length_cons, List.length_nil] at heq
      omega
    · rw [if_neg heq]
      have h' : (acc ++ [pr]).length < N := by
        simp only [List.length_append, List.length_cons, List.length_nil] at heq ⊢
        omega
      rw [ih _ h', decide_eq_decide]
      simp only [List.length_append, List.length_cons, List.length_nil]
      omega

theorem append_yields_size (N : Nat) (pr : Item) :
    ∀ (m : Nat) (acc : List Item), acc.length < N →
      (append_yields N acc pr m).1.length = acc.length + min m (N - acc.length) := by
  intro m
  induction m with
  | zero =>
    intro acc h
    rw [append_yields]
    show acc.length = acc.length + min 0 (N - acc.length)
    omega
  | succ k ih =>
    intro acc h
    rw [append_yields]
    by_cases heq : (acc ++ [pr]).length = N
    · rw [if_pos heq]
      show (acc ++ [pr]).length = acc.length + min (k + 1) (N - acc.length)
      simp only [List.length_append, List.length_cons, List.length_nil] at heq ⊢
      omega
    · rw [if_neg heq]
      have h' : (acc ++ [pr]).length < N := by
        simp only [List.length_append, List.length_cons, List.length_nil] at heq ⊢
        omega
      rw [ih _ h']
      simp only [List.length_append, List.length_cons, List.length_nil]
      omega

theorem choose_review_go_fetches (d : Item → Item) (beh : Nat → ReqBehavior)
    (now : ℚ) (user : String) (N : Nat) (hclean : ∀ k, req_ok beh now k) :
    ∀ (issues : List Item) (k : Nat) (acc : List Item), acc.length < N →
      (choose_review_go d beh now user N issues k acc).1
        = fetches_needed d user (N - acc.length) issues := by
  intro issues
  induction issues with
  | nil => intro k acc h; rfl
  | cons i rest ih =>
    intro k acc hacc
    obtain ⟨rem, rst, hbeh, hsig⟩ := hclean k
    rw [choose_review_go, hbeh]
    dsimp only
    rw [fetches_needed]
    by_cases hm : N - acc.length ≤ matching_reviewers (d i) user
    · have h2 : (append_yields N acc (d i) (matching_reviewers (d i) user)).2 = true := by
        rw [append_yields_break N (d i) _ acc hacc]
        simpa using hm
      rw [if_pos h2, if_pos hm]
    · have h2 : (append_yields N acc (d i) (matching_reviewers (d i) user)).2 = false := by
        rw [append_yields_break N (d i) _ acc hacc]
        simpa using hm
      rw [if_neg (by simp [h2]), if_neg (fun hne => hne hsig), if_neg hm]
      have hsz : (append_yields N acc (d i) (matching_reviewers (d i) user)).1.length
          = acc.length + matching_reviewers (d i) user := by
        rw [append_yields_size N (d i) _ acc hacc]
        omega
      have hlt : (append_yields N acc (d i) (matching_reviewers (d i) user)).1.length < N := by
        omega
      rw [ih (k + 1) _ hlt, hsz]
      have harith : N - (acc.length + matching_reviewers (d i) user)
          = N - acc.length - matching_reviewers (d i) user := by omega
      rw [harith, Nat.add_comm]

/-- C3: with a target identity, the review-queue scan performs exactly as
many per-item detail fetches as the position of the N-th matching item in
the input (the full input length when fewer than N match), and never more;
with no identity it returns the first N raw items with zero fetches. -/
theorem c3_review_scan_early_exit (issues : List Item) (N : Nat) (user : String)
    (d : Item → Item) (beh : Nat → ReqBehavior) (now : ℚ) :
    (1 ≤ N → (∀ k, req_ok beh now k) →
        ((choose_review issues N (some user) d beh now).1).1
          = fetches_needed d user N issues)
    ∧ (choose_review issues N none d beh now).1 = (0, issues.take N) := by
  constructor
  · intro hN hclean
    have h := choose_review_go_fetches d beh now user N hclean issues 0 []
      (by simpa using hN)
    simpa [choose_review] using h
  · rfl

theorem c3_review_scan_early_exit_witness :
    ((choose_review [⟨0, []⟩, ⟨1, [⟨"bob"⟩]⟩, ⟨2, [⟨"bob"⟩]⟩] 1 (some "bob")
        id (fun _ => ReqBehavior.ok 100 0) 0).1).1
      = fetches_needed id "bob" 1 [⟨0, []⟩, ⟨1, [⟨"bob"⟩]⟩, ⟨2, [⟨"bob"⟩]⟩] :=
  (c3_review_scan_early_exit [⟨0, []⟩, ⟨1, [⟨"bob"⟩]⟩, ⟨2, [⟨"bob"⟩]⟩] 1 "bob"
      id (fun _ => ReqBehavior.ok 100 0) 0).1 (Nat.le_refl 1)
    (fun _ => ⟨100, 0, rfl, rfl⟩)

theorem get_issues_go_yields_take (α : Type) (all : List α)
    (beh : Nat → ReqBehavior) (now : ℚ) :
    ∀ (fuel p dc : Nat), 1 ≤ p → dc = 100 * (p - 1) → dc ≤ all.length →
      ∃ n, (get_issues_go all beh now fuel p dc).1 = (all.drop dc).take n := by
  intro fuel
  induction fuel with
  | zero => intro p dc _ _ _; exact ⟨0, rfl⟩
  | succ f ih =>
    intro p dc hp hdc hle
    rw [get_issues_go]
    cases hbeh : beh p with
    | timeout => exact ⟨0, rfl⟩
    | ok rem rst =>
      dsimp only
      by_cases hsig : (github_ratelimiter rem rst now).signal ≠ 0
      · rw [if_pos hsig]
        refine ⟨100, ?_⟩
        show page_items all p = (all.drop dc).take 100
        rw [page_items, hdc]
      · rw [if_neg hsig]
        by_cases hdone : dc + (page_items all p).length = all.length
        · rw [if_pos hdone]
          refine ⟨100, ?_⟩
          show page_items all p = (all.drop dc).take 100
          rw [page_items, hdc]
        · rw [if_neg hdone]
          have hlen_items : (page_items all p).length = min 100 (all.length - dc) := by
            rw [page_items, ← hdc, List.length_take, List.length_drop]
          have hgt : 100 < all.length - dc := by
            rw [hlen_items] at hdone
            omega
          have h100 : (page_items all p).length = 100 := by
            rw [hlen_items]
            omega
          rw [h100]
          obtain ⟨n', hn'⟩ := ih (p + 1) (dc + 100) (by omega) (by omega) (by omega)
          refine ⟨100 + n', ?_⟩
          show page_items all p ++ (get_issues_go all beh now f (p + 1) (dc + 100)).1
              = (all.drop dc).take (100 + n')
          rw [hn', List.take_add, page_items, hdc]
          congr 2
          rw [List.drop_drop]

theorem get_issues_go_complete (α : Type) (all : List α)
    (beh : Nat → ReqBehavior) (now : ℚ) (hclean : ∀ p, req_ok beh now p) :
    ∀ (fuel p dc : Nat), 1 ≤ p → dc = 100 * (p - 1) → dc ≤ all.length →
      all.length - dc < fuel →
      get_issues_go all beh now fuel p dc = (all.drop dc, StopReason.complete) := by
  intro fuel
  induction fuel with
  | zero => intro p dc _ _ _ hfuel; omega
  | succ f ih =>
    intro p dc hp hdc hle hfuel
    obtain ⟨rem, rst, hbeh, hsig⟩ := hclean p
    rw [get_issues_go, hbeh]
    dsimp only
    rw [if_neg (fun hne => hne hsig)]
    have hlen_items : (page_items all p).length = min 100 (all.length - dc) := by
      rw [page_items, ← hdc, List.length_take, List.length_drop]
    by_cases hdone : dc + (page_items all p).length = all.length
    · rw [if_pos hdone]
      have hsmall : (all.drop dc).length ≤ 100 := by
        rw [List.length_drop]
        rw [hlen_items] at hdone
        omega
      rw [page_items, ← hdc, List.take_of_length_le hsmall]
    · rw [if_neg hdone]
      have hgt : 100 < all.length - dc := by
        rw [hlen_items] at hdone
        omega
      have h100 : (page_items all p).length = 100 := by
        rw [hlen_items]
        omega
      rw [h100]
      rw [ih (p + 1) (dc + 100) (by omega) (by omega) (by omega) (by omega)]
      refine Prod.ext ?_ rfl
      show page_items all p ++ all.drop (dc + 100) = all.drop dc
      rw [page_items, hdc, ← List.drop_drop, List.take_append_drop]

/-- C1: for a consistent search API (page p serves the p-th hundred of the
`total_count` items), the paged fetcher yields a take-of-the-front selection
of the result set (so never more than `total_count`, and earlier yields are
kept under truncation), and whenever no request times out and the rate
limiter never signals give-up it yields exactly the `total_count` items and
stops with the completion condition `data_count == total_count`. -/
theorem c1_paged_fetcher_total_count (α : Type) (all : List α)
    (beh : Nat → ReqBehavior) (now : ℚ) :
    ((get_issues all beh now).1.length ≤ all.length
      ∧ ∃ n, (get_issues all beh now).1 = all.take n)
    ∧ ((∀ p, req_ok beh now p) →
        get_issues all beh now = (all, StopReason.complete)) := by
  constructor
  · obtain ⟨n, hn⟩ := get_issues_go_yields_take α all beh now (all.length + 1) 1 0
      (Nat.le_refl 1) (by norm_num) (Nat.zero_le _)
    rw [List.drop_zero] at hn
    constructor
    · show (get_issues_go all beh now (all.length + 1) 1 0).1.length ≤ all.length
      rw [hn, List.length_take]
      omega
    · exact ⟨n, hn⟩
  · intro hclean
    have h := get_issues_go_complete α all beh now hclean (all.length + 1) 1 0
      (Nat.le_refl 1) (by norm_num) (Nat.zero_le _) (by omega)
    show get_issues_go all beh now (all.length + 1) 1 0 = (all, StopReason.complete)
    rw [h, List.drop_zero]

theorem c1_paged_fetcher_total_count_witness :
    get_issues ([0, 1, 2] : List Nat) (fun _ => ReqBehavior.ok 100 0) 0
      = ([0, 1, 2], StopReason.complete) :=
  (c1_paged_fetcher_total_count Nat [0, 1, 2] (fun _ => ReqBehavior.ok 100 0) 0).2
    (fun _ => ⟨100, 0, rfl, rfl⟩)

theorem char_toNat_ofNat_byte (b : Nat) (h : b < 256) : (Char.ofNat b).toNat = b := by
  have hv : b.isValidChar := Or.inl (by omega)
  simp [Char.ofNat, hv, Char.toNat, Char.ofNatAux, UInt32.toNat, BitVec.toNat_ofNatLt]

theorem hexVal_hexDigit : ∀ n, n < 16 → hexVal (hexDigit n) = some n := by decide

theorem urlDecode_gh_encode (x : List Nat) (h : ∀ b ∈ x, b < 256) :
    urlDecodeBytes (gh_encode x) = some x := by
  induction x with
  | nil => rfl
  | cons b rest ih =>
    have hb : b < 256 := h b (by simp)
    have hrest := ih (fun y hy => h y (by simp [hy]))
    rw [gh_encode]
    by_cases h32 : b = 32
    · subst h32
      rw [if_pos rfl, List.singleton_append, urlDecodeBytes.eq_def]
      dsimp only
      rw [if_neg (by decide), if_pos rfl, hrest]
    · rw [if_neg h32]
      by_cases hsafe : isSafeByte b = true
      · rw [if_pos hsafe, List.singleton_append]
        have hfacts : b ≠ 37 ∧ b ≠ 43 := by
          simp [isSafeByte] at hsafe
          omega
        have htn : (Char.ofNat b).toNat = b := char_toNat_ofNat_byte b hb
        have hne1 : ¬ Char.ofNat b = '%' := fun hc => hfacts.1 (by rw [← htn, hc]; rfl)
        have hne2 : ¬ Char.ofNat b = '+' := fun hc => hfacts.2 (by rw [← htn, hc]; rfl)
        rw [urlDecodeBytes.eq_def]
        dsimp only
        rw [if_neg hne1, if_neg hne2, hrest, htn]
      · rw [if_neg hsafe]
        show urlDecodeBytes ('%' :: hexDigit (b / 16) :: hexDigit (b % 16)
            :: gh_encode rest) = some (b :: rest)
        rw [urlDecodeBytes.eq_def]
        dsimp only
        rw [if_pos rfl]
        rw [hexVal_hexDigit (b / 16) (by omega), hexVal_hexDigit (b % 16) (by omega),
          hrest]
        have harith : 16 * (b / 16) + b % 16 = b := by omega
        simp only [harith]

theorem quote_not_mem_gh_encode (x : List Nat) (h : ∀ b ∈ x, b < 256)
    (h34 : 34 ∉ x) : '"' ∉ gh_encode x := by
  induction x with
  | nil => simp [gh_encode]
  | cons b rest ih =>
    have hb : b < 256 := h b (by simp)
    have hne34 : b ≠ 34 := fun hh => h34 (by simp [hh])
    have hrest := ih (fun y hy => h y (by simp [hy])) (fun hy => h34 (by simp [hy]))
    rw [gh_encode]
    intro hmem
    rw [List.mem_append] at hmem
    rcases hmem with hm | hm
    · by_cases h32 : b = 32
      · subst h32
        rw [if_pos rfl] at hm
        simp at hm
      · rw [if_neg h32] at hm
        by_cases hsafe : isSafeByte b = true
        · rw [if_pos hsafe] at hm
          simp only [List.mem_singleton] at hm
          apply hne34
          have htn := char_toNat_ofNat_byte b hb
          rw [← htn, ← hm]
          rfl
        · rw [if_neg hsafe] at hm
          have hq : ∀ n, n < 16 → hexDigit n ≠ '"' := by decide
          simp only [List.mem_cons, List.not_mem_nil, or_false] at hm
          rcases hm with hm | hm | hm
          · exact absurd hm (by decide)
          · exact hq (b / 16) (by omega) hm.symm
          · exact hq (b % 16) (by omega) hm.symm
    · exact hrest hm

theorem upToQuote_scan (cs rest : List Char) (h : '"' ∉ cs) :
    upToQuote (cs ++ '"' :: rest) = some (cs, rest) := by
  induction cs with
  | nil => simp [upToQuote]
  | cons c cs' ih =>
    have hc : ¬ c = '"' := fun hh => h (by simp [hh])
    have h' : '"' ∉ cs' := fun hm => h (by simp [hm])
    rw [List.cons_append, upToQuote, if_neg hc, ih h']

theorem label_term_parses (x : List Nat) (h : ∀ b ∈ x, b < 256) (h34 : 34 ∉ x) :
    parse_label_term (label_term x) = some x := by
  have hassoc : label_term x
      = ['l', 'a', 'b', 'e', 'l', ':', '"'] ++ (gh_encode x ++ ['"']) := by
    rw [label_term, List.append_assoc]
  have h7 : (['l', 'a', 'b', 'e', 'l', ':', '"'] : List Char).length = 7 := rfl
  rw [hassoc, parse_label_term, if_pos (by rw [← h7, List.take_left]), ← h7,
    List.drop_left, upToQuote_scan _ _ (quote_not_mem_gh_encode x h h34)]
  show (if ([] : List Char) = [] then urlDecodeBytes (gh_encode x) else none) = some x
  rw [if_pos rfl]
  exact urlDecode_gh_encode x h

theorem string_intercalate_three (s a b c : String) :
    String.intercalate s [a, b, c] = a ++ s ++ b ++ s ++ c := rfl

/-- C7 counterexample: the label with byte content `a"b` (a double quote
inside the label).  `quote_plus(x, safe='"')` leaves the inner quote
unescaped, so the rendered term is `label:"a"b"`, whose quoted extent ends at
the inner quote; the rendered term does not parse back to the original
label. -/
theorem c7_quote_label_breaks_roundtrip :
    ¬ parse_label_term (label_term [97, 34, 98]) = some [97, 34, 98] := by
  decide

/-- C7 (amended): the search URL is the conjunction of the `is:<kind>`,
`repo:<id>`, `is:<state>` terms, one quoted label term per excluded/included
label, and the `sort`, `order`, `page`, `per_page=100` parameters; every
rendered label term has the shape `label:"<encoded bytes>"`; spaces are
escaped (as `+`) and a label free of double-quote bytes round-trips through
render-and-parse; but double quotes themselves are exempted from
percent-encoding (`safe='"'`), so a label containing a quote does not
round-trip. -/
theorem c7_query_url_shape_and_roundtrip :
    (∀ (repository : String) (closed pull_request : Bool)
        (include_labels exclude_labels : List (List Nat)) (sort : String)
        (ascending_order : Bool) (page : Nat),
      search_url (build_query_url repository closed pull_request include_labels
          exclude_labels sort ascending_order) page
        = "https://api.github.com/search/issues?"
            ++ ("q=" ++ String.intercalate "+"
              (["is:" ++ (if pull_request then "pr" else "issue"),
                "repo:" ++ repository,
                "is:" ++ (if closed then "closed" else "open")]
                ++ exclude_labels.map
                    (fun x => "-label:\"" ++ String.mk (gh_encode x) ++ "\"")
                ++ include_labels.map
                    (fun x => "label:\"" ++ String.mk (gh_encode x) ++ "\"")))
            ++ "&" ++ ("sort=" ++ sort)
            ++ "&" ++ ("order=" ++ (if ascending_order then "asc" else "desc"))
            ++ "&page=" ++ toString page ++ "&per_page=100")
    ∧ (∀ x : List Nat, ("label:\"" ++ String.mk (gh_encode x) ++ "\"").data
        = label_term x)
    ∧ (∀ x : List Nat, (∀ b ∈ x, b < 256) → 34 ∉ x →
        parse_label_term (label_term x) = some x)
    ∧ gh_encode [97, 32, 98] = ['a', '+', 'b'] := by
  refine ⟨?_, ?_, label_term_parses, by decide⟩
  · intro repository closed pull_request include_labels exclude_labels sort
      ascending_order page
    apply String.ext
    simp only [build_query_url, search_url, string_intercalate_three,
      String.data_append, List.flatten_cons, List.flatten_nil,
      List.singleton_append, List.cons_append, List.nil_append,
      List.append_nil, List.append_assoc]
  · intro x
    simp only [String.data_append, label_term]

theorem c7_query_url_shape_and_roundtrip_witness :
    parse_label_term (label_term [97, 32, 98]) = some [97, 32, 98] :=
  c7_query_url_shape_and_roundtrip.2.2.1 [97, 32, 98] (by decide) (by decide)
